import Mathlib

/-!
Verification of the `alarm_clock` package (models.py, scheduler.py).

Embedding conventions:

* A UTC instant is an `Int` counting microseconds since an epoch whose
  day 0 is a Monday (Python `datetime` has microsecond resolution, and
  `timedelta(seconds=0.5)` is exactly 500000 microseconds).
* A calendar date is an `Int` counting days since that same epoch, so
  Python's `date.weekday()` (Monday = 0) is `d % 7`.
* `zoneinfo.ZoneInfo(name)` is modelled as a fixed UTC offset `off`
  (seconds east of UTC).  All theorems quantify over `off`, covering
  every fixed-offset zone; DST transitions are outside the embedding.
* Python `dict` payloads produced by `to_dict` / consumed by `from_dict`
  are modelled as records whose fields are `Option`-valued (a `none`
  field is an absent key).  ISO date strings are modelled by the day
  number they denote (`date.fromisoformat` inverts `date.isoformat`).
* `float` values (`volume`) are modelled as `ℚ`.
* Constructor validation (`__post_init__` raising `ValueError`) is
  modelled by an `Option`-returning smart constructor.
-/

/-- Microseconds per second. -/
def usPerSec : Int := 1000000

/-- Microseconds per day. -/
def usPerDay : Int := 86400000000

/-- Half-second grace window (`timedelta(seconds=0.5)`) in microseconds. -/
def graceUs : Int := 500000

/-- Local calendar date of UTC instant `t` in a zone at fixed offset
`off` seconds east of UTC: `now.astimezone(tz).date()`. -/
def localDate (off t : Int) : Int := (t + off * usPerSec) / usPerDay

/-- Python `date.weekday()` for a day number (epoch day 0 is a Monday). -/
def weekday (d : Int) : Int := d % 7

/-- Embedding of `MusicSettings` (models.py lines 24-32). `extra` keeps
the dict's entries as an association list in insertion order. -/
structure MusicSettings where
  source : String
  resource : Option String
  tone_frequency_hz : Int
  tone_duration_seconds : Int
  extra : List (String × String)
deriving DecidableEq

/-- Embedding of `MusicSettings.tone()` (models.py lines 34-36). -/
def MusicSettings.tone (frequency_hz : Int := 440) (duration_seconds : Int := 30) : MusicSettings :=
  { source := "tone", resource := none, tone_frequency_hz := frequency_hz,
    tone_duration_seconds := duration_seconds, extra := [] }

/-- Embedding of the `Alarm` dataclass fields (models.py lines 76-90).
`timezone` stays a zone name; its fixed UTC offset is passed separately
to the functions that call `ZoneInfo`.  `start_date` is a day number. -/
structure Alarm where
  id : String
  label : String
  hour : Int
  minute : Int
  second : Int
  timezone : String
  repeat_days : List Int
  start_date : Option Int
  music : MusicSettings
  enabled : Bool
  volume : ℚ
deriving DecidableEq

/-- Insertion of an element into an ascending list (helper for the
embedding of Python `sorted`). -/
def insertAsc (x : Int) : List Int → List Int
  | [] => [x]
  | y :: ys => if x ≤ y then x :: y :: ys else y :: insertAsc x ys

/-- Embedding of Python `sorted` on a list of ints (insertion sort; on
the duplicate-free lists produced below it agrees with any sort). -/
def sortInts : List Int → List Int
  | [] => []
  | x :: xs => insertAsc x (sortInts xs)

/-- First-occurrence deduplication loop of `_normalize_days`
(models.py lines 13-20), with the `seen` set as an accumulator. -/
def dedupFirst (seen : List Int) : List Int → List Int
  | [] => []
  | d :: ds => if d ∈ seen then dedupFirst seen ds else d :: dedupFirst (d :: seen) ds

/-- Embedding of `_normalize_days` (models.py lines 10-21): `none` is
the `ValueError` raised for a weekday index outside 0..6; otherwise the
sorted tuple of the distinct entries. -/
def normalize_days (days : List Int) : Option (List Int) :=
  if days.any (fun d => decide (d < 0) || decide (6 < d)) then none
  else some (sortInts (dedupFirst [] days))

/-- Embedding of the `Alarm(...)` constructor together with
`__post_init__` (models.py lines 92-101): `none` is a raised
`ValueError`.  The checks run in source order; `label` defaults to
`id` when empty. -/
def Alarm.make (id label : String) (hour minute second : Int) (timezone : String)
    (repeat_days : List Int) (start_date : Option Int) (music : MusicSettings)
    (enabled : Bool) (volume : ℚ) : Option Alarm :=
  if id = "" then none
  else if ¬ (0 ≤ hour ∧ hour ≤ 23 ∧ 0 ≤ minute ∧ minute ≤ 59 ∧ 0 ≤ second ∧ second ≤ 59) then none
  else
    match normalize_days repeat_days with
    | none => none
    | some days =>
      if volume ≤ 0 then none
      else some
        { id := id, label := if label = "" then id else label,
          hour := hour, minute := minute, second := second,
          timezone := timezone, repeat_days := days, start_date := start_date,
          music := music, enabled := enabled, volume := volume }

/-- Record written by `MusicSettings.to_dict` and read by
`MusicSettings.from_dict`; `none` models an absent key. -/
structure MusicRecord where
  source : Option String := none
  resource : Option String := none
  tone_frequency_hz : Option Int := none
  tone_duration_seconds : Option Int := none
  extra : Option (List (String × String)) := none
deriving DecidableEq

/-- Embedding of `MusicSettings.to_dict` (models.py lines 56-63). -/
def MusicSettings.to_dict (m : MusicSettings) : MusicRecord :=
  { source := some m.source, resource := m.resource,
    tone_frequency_hz := some m.tone_frequency_hz,
    tone_duration_seconds := some m.tone_duration_seconds,
    extra := some m.extra }

/-- Embedding of `MusicSettings.from_dict` (models.py lines 65-73).
`str(payload.get("source"))` turns an absent source into the string
"None"; the numeric fields default to 440 and 30; `extra` defaults to
the empty dict. -/
def MusicSettings.from_dict (r : MusicRecord) : MusicSettings :=
  { source := match r.source with | some s => s | none => "None",
    resource := r.resource,
    tone_frequency_hz := r.tone_frequency_hz.getD 440,
    tone_duration_seconds := r.tone_duration_seconds.getD 30,
    extra := r.extra.getD [] }

/-- Record written by `Alarm.to_dict` and read by `Alarm.from_dict`.
`id` is required (`payload["id"]` raises on an absent key); every other
field may be absent. `start_date` holds the day number denoted by the
ISO date string, or `none` for a missing/null value. -/
structure AlarmRecord where
  id : String
  label : Option String := none
  hour : Option Int := none
  minute : Option Int := none
  second : Option Int := none
  timezone : Option String := none
  repeat_days : Option (List Int) := none
  start_date : Option Int := none
  music : Option MusicRecord := none
  enabled : Option Bool := none
  volume : Option ℚ := none
deriving DecidableEq

/-- Embedding of `Alarm.to_dict` (models.py lines 103-116). -/
def Alarm.to_dict (a : Alarm) : AlarmRecord :=
  { id := a.id, label := some a.label, hour := some a.hour,
    minute := some a.minute, second := some a.second,
    timezone := some a.timezone, repeat_days := some a.repeat_days,
    start_date := a.start_date, music := some a.music.to_dict,
    enabled := some a.enabled, volume := some a.volume }

/-- Embedding of `Alarm.from_dict` (models.py lines 118-134): absent
fields take the documented defaults and the value goes through the
validating constructor (`none` is a raised error). -/
def Alarm.from_dict (r : AlarmRecord) : Option Alarm :=
  Alarm.make r.id (r.label.getD r.id) (r.hour.getD 0) (r.minute.getD 0)
    (r.second.getD 0) (r.timezone.getD "UTC") (r.repeat_days.getD [])
    r.start_date (MusicSettings.from_dict (r.music.getD {}))
    (r.enabled.getD true) (r.volume.getD 1)

/-- Local time of day of the alarm (`time(self.hour, self.minute,
self.second)`) in microseconds after local midnight. -/
def Alarm.timeOfDayUs (a : Alarm) : Int :=
  (a.hour * 3600 + a.minute * 60 + a.second) * usPerSec

/-- Embedding of the inner `combine` of `next_occurrence` (models.py
lines 142-144): the UTC instant of `target_date` at the alarm's local
time of day, in a zone at fixed offset `off` seconds. -/
def Alarm.combine (off : Int) (a : Alarm) (target_date : Int) : Int :=
  target_date * usPerDay + a.timeOfDayUs - off * usPerSec

/-- Test `self.start_date and self.start_date < localized_now.date()`
(models.py line 152). -/
def startBefore (sd : Option Int) (today : Int) : Bool :=
  match sd with
  | some d => decide (d < today)
  | none => false

/-- Python `min(self.repeat_days)` (models.py line 167); the empty case
is unreachable there. -/
def listMin : List Int → Int
  | [] => 0
  | x :: xs => xs.foldl min x

/-- The day-by-day loop `for offset in range(0, 7)` of `next_occurrence`
(models.py lines 157-165), one list element per loop iteration. -/
def scanDays (off : Int) (a : Alarm) (now today candidate : Int) : List Int → Option Int
  | [] => none
  | o :: os =>
    let possible := today + o
    if possible < candidate then scanDays off a now today candidate os
    else if weekday possible ∉ a.repeat_days then scanDays off a now today candidate os
    else if now + graceUs < a.combine off possible then some (a.combine off possible)
    else scanDays off a now today candidate os

/-- Fallback delta `(next_day - today_idx) % 7 or 7` (models.py
lines 167-169). -/
def fallbackDelta (a : Alarm) (today : Int) : Int :=
  if (listMin a.repeat_days - weekday today) % 7 = 0 then 7
  else (listMin a.repeat_days - weekday today) % 7

/-- Repeating branch of `next_occurrence` (models.py lines 156-171):
the 7-day scan, then the wrap to the earliest repeat weekday. -/
def Alarm.nextRepeat (off : Int) (a : Alarm) (now today candidate : Int) : Option Int :=
  match scanDays off a now today candidate [0, 1, 2, 3, 4, 5, 6] with
  | some occ => some occ
  | none => some (a.combine off (today + fallbackDelta a today))

/-- Non-repeating branch of `next_occurrence` (models.py lines
173-179). -/
def Alarm.nextOnce (off : Int) (a : Alarm) (now today candidate : Int) : Option Int :=
  let occurrence := a.combine off candidate
  if occurrence ≤ now + graceUs then
    if a.start_date.isSome then none
    else some (a.combine off (today + 1))
  else some occurrence

/-- Embedding of `Alarm.next_occurrence` (models.py lines 136-179) for
a zone at fixed offset `off` seconds east of UTC; `now` is a UTC
instant in microseconds. -/
def Alarm.next_occurrence (off : Int) (a : Alarm) (now : Int) : Option Int :=
  if a.enabled = false then none
  else
    let today := localDate off now
    let candidate := match a.start_date with | some sd => sd | none => today
    if startBefore a.start_date today && a.repeat_days.isEmpty then none
    else if a.repeat_days.isEmpty then a.nextOnce off now today candidate
    else a.nextRepeat off now today candidate

/-!
Scheduler model (scheduler.py).

`AlarmScheduler` holds the live state.  Python's `Alarm` objects are
mutable and shared between the live dict, snapshots and timer tasks, so
the model gives each object an address into an explicit `heap`; the
live mapping `alarms` and a `snapshot` both hold `id ↦ address` pairs,
and `enable`/`disable` mutate the heap cell in place.  `tasks` is the
key set of the `_tasks` dict (the `asyncio.Task` values themselves are
irrelevant to the claims).  Each mutating operation takes a `saveOk`
flag telling whether the `store.save` call it performs succeeds; the
result records the post-state, the raised error (if any), and whether
`save` was invoked at all.  Python raises `ValueError` for a duplicate
id and `KeyError` for a missing one; the spec names these `DuplicateId`
and `NotFound`, and a failing save is `StorageFailed`.
-/

/-- Errors surfaced by scheduler operations. -/
inductive SchedErr where
  | DuplicateId
  | NotFound
  | StorageFailed
deriving DecidableEq

/-- Lookup in a Python dict modelled as an association list
(first binding wins; live dicts have unique keys). -/
def assocLookup : List (String × Nat) → String → Option Nat
  | [], _ => none
  | p :: ps, k => if p.1 = k then some p.2 else assocLookup ps k

/-- Python `d[k] = v`: replace the binding in place if the key exists,
otherwise append it. -/
def assocSet : List (String × Nat) → String → Nat → List (String × Nat)
  | [], k, v => [(k, v)]
  | p :: ps, k, v => if p.1 = k then (k, v) :: ps else p :: assocSet ps k v

/-- Python `d.pop(k)`: drop the binding (keys are unique). -/
def assocRemove : List (String × Nat) → String → List (String × Nat)
  | [], _ => []
  | p :: ps, k => if p.1 = k then ps else p :: assocRemove ps k

/-- Key-set insertion for the `_tasks` dict (`self._tasks[id] = task`
replaces the task object but the key set just gains `id`). -/
def taskIns (t : List String) (id : String) : List String :=
  if id ∈ t then t else t ++ [id]

/-- Key-set removal for `self._tasks.pop(id, None)` inside `_cancel`. -/
def taskRem (t : List String) (id : String) : List String :=
  t.erase id

/-- Live state of an `AlarmScheduler` (scheduler.py lines 17-23). -/
structure AlarmScheduler where
  heap : List Alarm
  alarms : List (String × Nat)
  tasks : List String
  started : Bool
deriving DecidableEq

/-- Python `self._alarms.get(id)`: follow the id to the shared object. -/
def AlarmScheduler.getAlarm (s : AlarmScheduler) (id : String) : Option Alarm :=
  match assocLookup s.alarms id with
  | none => none
  | some addr => s.heap[addr]?

/-- In-place mutation `alarm.enabled = b` of the shared object bound to
`id` (scheduler.py lines 79, 91, 123, 131). -/
def AlarmScheduler.setEnabled (s : AlarmScheduler) (id : String) (b : Bool) : AlarmScheduler :=
  match assocLookup s.alarms id with
  | none => s
  | some addr =>
    match s.heap[addr]? with
    | none => s
    | some a => { s with heap := s.heap.set addr { a with enabled := b } }

/-- Result of one scheduler operation: post-state, raised error (if
any), and whether `store.save` was invoked. -/
structure OpResult where
  state : AlarmScheduler
  err : Option SchedErr
  saved : Bool
deriving DecidableEq

/-- Dict comprehension `{alarm.id: alarm for alarm in alarms}` of
`start` (scheduler.py line 30), binding the `i`-th loaded alarm to heap
address `base + i` (later bindings win, as in a Python dict). -/
def loadAlarms (base : Nat) (acc : List (String × Nat)) : List Alarm → List (String × Nat)
  | [] => acc
  | a :: rest => loadAlarms (base + 1) (assocSet acc a.id base) rest

/-- Spawn loop of `start` (scheduler.py lines 32-34): one task per
enabled loaded alarm. -/
def spawnLoaded (t : List String) : List Alarm → List String
  | [] => t
  | a :: rest => spawnLoaded (if a.enabled then taskIns t a.id else t) rest

/-- Embedding of `AlarmScheduler.start` (scheduler.py lines 25-34);
`loaded` is the list returned by `store.load()`. -/
def AlarmScheduler.start (s : AlarmScheduler) (loaded : List Alarm) : OpResult :=
  if s.started then ⟨s, none, false⟩
  else
    ⟨{ heap := s.heap ++ loaded,
       alarms := loadAlarms s.heap.length [] loaded,
       tasks := spawnLoaded s.tasks loaded,
       started := true }, none, false⟩

/-- Embedding of `AlarmScheduler.stop` (scheduler.py lines 36-45). -/
def AlarmScheduler.stop (s : AlarmScheduler) : OpResult :=
  ⟨{ s with tasks := [], started := false }, none, false⟩

/-- Embedding of `AlarmScheduler.add_alarm` (scheduler.py lines 47-54):
duplicate check, insert into the live dict, save, then spawn. -/
def AlarmScheduler.add_alarm (saveOk : Bool) (s : AlarmScheduler) (a : Alarm) : OpResult :=
  if (assocLookup s.alarms a.id).isSome then ⟨s, some .DuplicateId, false⟩
  else
    let s1 : AlarmScheduler :=
      { s with heap := s.heap ++ [a], alarms := assocSet s.alarms a.id s.heap.length }
    if !saveOk then ⟨s1, some .StorageFailed, true⟩
    else if s1.started && a.enabled then
      ⟨{ s1 with tasks := taskIns s1.tasks a.id }, none, true⟩
    else ⟨s1, none, true⟩

/-- Embedding of `AlarmScheduler.update_alarm` (scheduler.py lines
56-62): replace the binding with the fresh object, save, then
`_reschedule` (cancel, and respawn if started and enabled). -/
def AlarmScheduler.update_alarm (saveOk : Bool) (s : AlarmScheduler) (a : Alarm) : OpResult :=
  if (assocLookup s.alarms a.id).isSome = false then ⟨s, some .NotFound, false⟩
  else
    let s1 : AlarmScheduler :=
      { s with heap := s.heap ++ [a], alarms := assocSet s.alarms a.id s.heap.length }
    if !saveOk then ⟨s1, some .StorageFailed, true⟩
    else
      let s2 : AlarmScheduler := { s1 with tasks := taskRem s1.tasks a.id }
      if s2.started && a.enabled then
        ⟨{ s2 with tasks := taskIns s2.tasks a.id }, none, true⟩
      else ⟨s2, none, true⟩

/-- Embedding of `AlarmScheduler.remove_alarm` (scheduler.py lines
64-70): pop the binding, save, then `_cancel`. -/
def AlarmScheduler.remove_alarm (saveOk : Bool) (s : AlarmScheduler) (id : String) : OpResult :=
  if (assocLookup s.alarms id).isSome = false then ⟨s, some .NotFound, false⟩
  else
    let s1 : AlarmScheduler := { s with alarms := assocRemove s.alarms id }
    if !saveOk then ⟨s1, some .StorageFailed, true⟩
    else ⟨{ s1 with tasks := taskRem s1.tasks id }, none, true⟩

/-- Embedding of `AlarmScheduler.enable` (scheduler.py lines 72-82):
mutate the shared object, save, then spawn if started. -/
def AlarmScheduler.enable (saveOk : Bool) (s : AlarmScheduler) (id : String) : OpResult :=
  match s.getAlarm id with
  | none => ⟨s, some .NotFound, false⟩
  | some a =>
    if a.enabled then ⟨s, none, false⟩
    else
      let s1 := s.setEnabled id true
      if !saveOk then ⟨s1, some .StorageFailed, true⟩
      else if s1.started then ⟨{ s1 with tasks := taskIns s1.tasks id }, none, true⟩
      else ⟨s1, none, true⟩

/-- Embedding of `AlarmScheduler.disable` (scheduler.py lines 84-93):
mutate the shared object, save, then `_cancel`. -/
def AlarmScheduler.disable (saveOk : Bool) (s : AlarmScheduler) (id : String) : OpResult :=
  match s.getAlarm id with
  | none => ⟨s, some .NotFound, false⟩
  | some a =>
    if !a.enabled then ⟨s, none, false⟩
    else
      let s1 := s.setEnabled id false
      if !saveOk then ⟨s1, some .StorageFailed, true⟩
      else ⟨{ s1 with tasks := taskRem s1.tasks id }, none, true⟩

/-- Embedding of `AlarmScheduler.trigger_now` (scheduler.py lines
95-99): playback only, no state change and no save. -/
def AlarmScheduler.trigger_now (s : AlarmScheduler) (id : String) : OpResult :=
  match s.getAlarm id with
  | none => ⟨s, some .NotFound, false⟩
  | some _ => ⟨s, none, false⟩

/-- Shared-state effect of a `_run_alarm` iteration that disables its
own alarm and exits (scheduler.py lines 122-125: no next occurrence;
lines 129-133: a one-shot alarm after firing): set `enabled = False` on
the shared object, save, return.  The finished task's entry is NOT
removed from `_tasks`. -/
def AlarmScheduler.taskSelfDisable (saveOk : Bool) (s : AlarmScheduler) (id : String) : OpResult :=
  match s.getAlarm id with
  | none => ⟨s, none, false⟩
  | some a =>
    if !a.enabled then ⟨s, none, false⟩
    else
      let s1 := s.setEnabled id false
      if !saveOk then ⟨s1, some .StorageFailed, true⟩
      else ⟨s1, none, true⟩

/-- Embedding of `AlarmScheduler.snapshot` (scheduler.py lines
137-138): `dict(self._alarms)` copies the dict but shares the `Alarm`
objects, i.e. a fresh list of the same `id ↦ address` bindings. -/
def AlarmScheduler.snapshot (s : AlarmScheduler) : List (String × Nat) :=
  s.alarms

/-- The scheduler operations and timer-task events that touch the
shared state, as one type so invariant preservation is a single
statement. -/
inductive Op where
  | start (loaded : List Alarm)
  | stop
  | add (a : Alarm)
  | update (a : Alarm)
  | remove (id : String)
  | enable (id : String)
  | disable (id : String)
  | triggerNow (id : String)
  | taskSelfDisable (id : String)

/-- Dispatch an operation on the scheduler state. -/
def applyOp (saveOk : Bool) (o : Op) (s : AlarmScheduler) : OpResult :=
  match o with
  | .start loaded => s.start loaded
  | .stop => s.stop
  | .add a => s.add_alarm saveOk a
  | .update a => s.update_alarm saveOk a
  | .remove id => s.remove_alarm saveOk id
  | .enable id => s.enable saveOk id
  | .disable id => s.disable saveOk id
  | .triggerNow id => s.trigger_now id
  | .taskSelfDisable id => s.taskSelfDisable saveOk id

/-!
Claim theorems.  Concrete values used by witnesses and counterexamples.
-/

/-- A tone `MusicSettings` value used by concrete alarms below. -/
def msTone : MusicSettings := MusicSettings.tone

/-- Daily 12:00:00 UTC alarm, no repeat days, no start date, disabled. -/
def alarmDisabled : Alarm :=
  ⟨"off", "off", 12, 0, 0, "UTC", [], none, msTone, false, 1⟩

/-- Daily 12:00:00 UTC alarm, no repeat days, no start date, enabled. -/
def alarmNoon : Alarm :=
  ⟨"noon", "noon", 12, 0, 0, "UTC", [], none, msTone, true, 1⟩

/-- Claim C1, counterexample: the claim quantifies over every alarm with
empty `repeat_days` and no `start_date`, but a disabled such alarm
returns `none`, not today's instant, even though `now` (midnight) is
more than the grace window before today's 12:00:00 alarm time. -/
theorem once_no_start_disabled_cex :
    Alarm.next_occurrence 0 alarmDisabled 0 = none ∧
    alarmDisabled.repeat_days = [] ∧ alarmDisabled.start_date = none ∧
    0 + graceUs < alarmDisabled.combine 0 (localDate 0 0) := by
  decide

/-- Claim C1 (amended with `enabled = true`): for every enabled alarm
with empty `repeat_days` and no `start_date`, if `now` is more than the
grace window before today's local alarm time the calculator returns
today's instant, and otherwise it returns tomorrow's instant at the
same local time. -/
theorem once_no_start_today_or_tomorrow (off : Int) (a : Alarm) (now : Int)
    (he : a.enabled = true) (hr : a.repeat_days = []) (hs : a.start_date = none) :
    (now + graceUs < a.combine off (localDate off now) →
      a.next_occurrence off now = some (a.combine off (localDate off now))) ∧
    (a.combine off (localDate off now) ≤ now + graceUs →
      a.next_occurrence off now = some (a.combine off (localDate off now + 1))) := by
  unfold Alarm.next_occurrence
  rw [he, hs, hr]
  simp only [Bool.false_eq_true, if_false, startBefore, List.isEmpty_nil, Bool.and_true,
    Bool.false_and, if_true]
  simp only [Alarm.nextOnce]
  constructor
  · intro h
    rw [if_neg (not_le.mpr h)]
    simp
  · intro h
    rw [if_pos h]
    simp [hs]

/-- Claim C1 witness: the amended theorem applied to the enabled noon
alarm with `now` at midnight of epoch day 0 yields noon of day 0. -/
theorem once_no_start_today_or_tomorrow_witness :
    Alarm.next_occurrence 0 alarmNoon 0 = some 43200000000 := by
  have h := (once_no_start_today_or_tomorrow 0 alarmNoon 0 rfl rfl rfl).1 (by decide)
  simpa using h

/-- Claim C4: an alarm with empty `repeat_days` and a `start_date`
returns `none` whenever the start date is strictly before the current
local date, and likewise whenever the start date's combined instant is
at or before `now + 0.5s`; it never rolls forward to the next day. -/
theorem once_past_start_none (off : Int) (a : Alarm) (now sd : Int)
    (hr : a.repeat_days = []) (hs : a.start_date = some sd)
    (h : sd < localDate off now ∨ a.combine off sd ≤ now + graceUs) :
    a.next_occurrence off now = none := by
  unfold Alarm.next_occurrence
  cases henb : a.enabled with
  | false => simp
  | true =>
    simp only [Bool.true_eq_false, if_false]
    rw [hs, hr]
    simp only [startBefore, List.isEmpty_nil, Bool.and_true]
    by_cases hlt : sd < localDate off now
    · rw [if_pos (by simpa using hlt)]
    · rw [if_neg (by simpa using hlt)]
      simp only [List.isEmpty_nil, if_true, Alarm.nextOnce]
      rcases h with h | h
      · exact absurd h hlt
      · rw [if_pos h]
        simp [hs]

/-- Past one-shot alarm: 07:00:00 UTC with start date day 0. -/
def alarmDoctor : Alarm :=
  ⟨"doctor", "Doctor", 7, 0, 0, "UTC", [], some 0, msTone, true, 1⟩

/-- Claim C4 witness: the past one-shot alarm returns `none` on day 1
at 08:00 UTC. -/
theorem once_past_start_none_witness :
    Alarm.next_occurrence 0 alarmDoctor 115200000000 = none :=
  once_past_start_none 0 alarmDoctor 115200000000 0 rfl rfl (Or.inl (by decide))

/-- Boolean check that a list of ints is strictly ascending. -/
def sortedLt : List Int → Bool
  | [] => true
  | [_] => true
  | a :: b :: t => decide (a < b) && sortedLt (b :: t)

/-- Invariants established by the `Alarm` constructor (`__post_init__`,
models.py lines 92-101): non-empty id and label, clock fields in range,
`repeat_days` strictly ascending (hence deduplicated) with entries in
0..6, positive volume. -/
def Alarm.Valid (a : Alarm) : Prop :=
  a.id ≠ "" ∧ a.label ≠ "" ∧
  (0 ≤ a.hour ∧ a.hour ≤ 23) ∧ (0 ≤ a.minute ∧ a.minute ≤ 59) ∧
  (0 ≤ a.second ∧ a.second ≤ 59) ∧
  sortedLt a.repeat_days = true ∧ (∀ d ∈ a.repeat_days, 0 ≤ d ∧ d ≤ 6) ∧
  0 < a.volume

instance (a : Alarm) : Decidable a.Valid :=
  inferInstanceAs (Decidable (a.id ≠ "" ∧ a.label ≠ "" ∧
    (0 ≤ a.hour ∧ a.hour ≤ 23) ∧ (0 ≤ a.minute ∧ a.minute ≤ 59) ∧
    (0 ≤ a.second ∧ a.second ≤ 59) ∧
    sortedLt a.repeat_days = true ∧ (∀ d ∈ a.repeat_days, 0 ≤ d ∧ d ≤ 6) ∧
    0 < a.volume))

theorem timeOfDayUs_bounds (a : Alarm) (hv : a.Valid) :
    0 ≤ a.timeOfDayUs ∧ a.timeOfDayUs < usPerDay := by
  obtain ⟨-, -, hh, hm, hs, -, -, -⟩ := hv
  unfold Alarm.timeOfDayUs usPerSec usPerDay
  omega

theorem localDate_combine (off : Int) (a : Alarm) (d : Int)
    (h0 : 0 ≤ a.timeOfDayUs) (h1 : a.timeOfDayUs < usPerDay) :
    localDate off (a.combine off d) = d := by
  unfold localDate Alarm.combine at *
  unfold usPerSec usPerDay at *
  omega

theorem localDate_spread (off now : Int) :
    localDate off now * usPerDay ≤ now + off * usPerSec ∧
    now + off * usPerSec < (localDate off now + 1) * usPerDay := by
  unfold localDate usPerSec usPerDay
  omega

theorem foldl_min_mem (xs : List Int) : ∀ x : Int, xs.foldl min x ∈ x :: xs := by
  induction xs with
  | nil => simp
  | cons y ys ih =>
    intro x
    rw [List.foldl_cons]
    rcases List.mem_cons.mp (ih (min x y)) with h | h
    · rw [h]
      rcases min_choice x y with h2 | h2 <;> rw [h2] <;> simp
    · exact List.mem_cons_of_mem _ (List.mem_cons_of_mem _ h)

theorem listMin_mem (l : List Int) (h : l ≠ []) : listMin l ∈ l := by
  cases l with
  | nil => exact absurd rfl h
  | cons x xs => exact foldl_min_mem xs x

theorem scanDays_sound (off : Int) (a : Alarm) (now today candidate : Int) :
    ∀ (l : List Int) (t : Int), scanDays off a now today candidate l = some t →
      ∃ d, t = a.combine off d ∧ weekday d ∈ a.repeat_days ∧ now + graceUs < t
  | [], t, h => by simp [scanDays] at h
  | o :: os, t, h => by
    simp only [scanDays] at h
    split at h
    · exact scanDays_sound off a now today candidate os t h
    · split at h
      · exact scanDays_sound off a now today candidate os t h
      · split at h
        · rename_i hskip hmem hgt
          injection h with h2
          subst h2
          exact ⟨today + o, rfl, not_not.mp hmem, hgt⟩
        · exact scanDays_sound off a now today candidate os t h

/-- Claim C2 (amended): for every valid enabled alarm with non-empty
`repeat_days`, the calculator returns an instant whose local weekday is
a member of `repeat_days` and which is strictly after `now` — but only
strictly after `now`, not always strictly after `now + 0.5s`: the wrap
branch skips the grace-window check (see the counterexample). -/
theorem repeat_weekday_mem_and_future (off : Int) (a : Alarm) (now : Int)
    (hv : a.Valid) (he : a.enabled = true) (hr : a.repeat_days ≠ []) :
    ∃ t, a.next_occurrence off now = some t ∧
      weekday (localDate off t) ∈ a.repeat_days ∧ now < t := by
  have htod := timeOfDayUs_bounds a hv
  have hie : a.repeat_days.isEmpty = false := by
    cases hl : a.repeat_days with
    | nil => exact absurd hl hr
    | cons x xs => simp
  unfold Alarm.next_occurrence
  rw [he]
  simp only [Bool.false_eq_true, if_false, hie, Bool.and_false, Bool.false_eq_true, if_false]
  unfold Alarm.nextRepeat
  cases hscan : scanDays off a now (localDate off now)
      (match a.start_date with | some sd => sd | none => localDate off now)
      [0, 1, 2, 3, 4, 5, 6] with
  | some t =>
    obtain ⟨d, rfl, hmem, hgt⟩ :=
      scanDays_sound off a now (localDate off now) _ _ t hscan
    refine ⟨a.combine off d, rfl, ?_, ?_⟩
    · rw [localDate_combine off a d htod.1 htod.2]
      exact hmem
    · have : 0 < graceUs := by unfold graceUs; omega
      omega
  | none =>
    set today := localDate off now with htoday
    refine ⟨a.combine off (today + fallbackDelta a today), rfl, ?_, ?_⟩
    · rw [localDate_combine off a _ htod.1 htod.2]
      have hmem := listMin_mem a.repeat_days hr
      have hrange := hv.2.2.2.2.2.2.1 (listMin a.repeat_days) hmem
      have : weekday (today + fallbackDelta a today) = listMin a.repeat_days := by
        unfold fallbackDelta weekday
        split <;> omega
      rw [this]
      exact hmem
    · have hspread := localDate_spread off now
      rw [← htoday] at hspread
      have hdelta : 1 ≤ fallbackDelta a today := by
        unfold fallbackDelta
        split <;> omega
      obtain ⟨ht0, ht1⟩ := htod
      obtain ⟨hs1, hs2⟩ := hspread
      unfold Alarm.combine
      unfold usPerDay usPerSec at *
      omega

/-- Weekly Tuesday alarm at local midnight, used to exhibit the missing
grace-window check in the wrap branch. -/
def alarmTue : Alarm :=
  ⟨"mid", "mid", 0, 0, 0, "UTC", [1], none, msTone, true, 1⟩

/-- Claim C2, counterexample: for the valid enabled weekly alarm
`alarmTue` and `now` 0.3 seconds before Tuesday midnight, the 7-day
scan rejects Tuesday (inside the grace window) and the wrap branch then
returns that very instant without re-checking the window, so the result
is NOT strictly after `now + 0.5s`. -/
theorem repeat_grace_window_cex :
    alarmTue.Valid ∧ alarmTue.enabled = true ∧ alarmTue.repeat_days ≠ [] ∧
    Alarm.next_occurrence 0 alarmTue 86399700000 = some 86400000000 ∧
    ¬ (86399700000 + graceUs < 86400000000) := by
  refine ⟨by decide, rfl, by decide, by decide, by decide⟩

/-- Claim C2 witness: the amended theorem applied to the weekly Tuesday
alarm on Monday 06:00 UTC; the scan returns Tuesday midnight. -/
theorem repeat_weekday_mem_and_future_witness :
    alarmTue.Valid ∧
    ∃ t, Alarm.next_occurrence 0 alarmTue 21600000000 = some t ∧
      weekday (localDate 0 t) ∈ alarmTue.repeat_days ∧ 21600000000 < t :=
  ⟨by decide,
   repeat_weekday_mem_and_future 0 alarmTue 21600000000 (by decide) rfl (by decide)⟩

/-- Weekly Monday alarm whose start date (day 14, a Monday) lies two
weeks past the current local date (day 0). -/
def alarmFar : Alarm :=
  ⟨"far", "far", 6, 0, 0, "UTC", [0], some 14, msTone, true, 1⟩

/-- Claim C3: evaluation at the failing input.  The 7-day scan skips
every candidate (all predate `start_date` = day 14), and the wrap
branch (models.py lines 166-171) then picks the next Monday from
`local_today`, ignoring `start_date`: the result falls on local day 7,
strictly before the alarm's earliest eligible date — contradicting the
code's own comment that `candidate_date` is "the earliest date the
alarm may ring" and the spec's scan "starting at the later of
`local_today` and the eligible start date". -/
theorem repeat_start_date_ignored_bug :
    alarmFar.Valid ∧ alarmFar.enabled = true ∧ alarmFar.start_date = some 14 ∧
    Alarm.next_occurrence 0 alarmFar 0 = some 626400000000 ∧
    localDate 0 626400000000 = 7 ∧ (7 : Int) < 14 := by
  decide

theorem sortedLt_chain : ∀ l : List Int, sortedLt l = true → l.Chain' (· < ·)
  | [], _ => List.chain'_nil
  | [_], _ => List.chain'_singleton _
  | a :: b :: t, h => by
    simp only [sortedLt, Bool.and_eq_true, decide_eq_true_eq] at h
    exact List.chain'_cons.mpr ⟨h.1, sortedLt_chain (b :: t) h.2⟩

theorem sortedLt_nodup (l : List Int) (h : sortedLt l = true) : l.Nodup :=
  ((List.chain'_iff_pairwise).mp (sortedLt_chain l h)).imp (fun hab => ne_of_lt hab)

theorem dedupFirst_eq_self :
    ∀ (seen l : List Int), l.Nodup → (∀ x ∈ l, x ∉ seen) → dedupFirst seen l = l
  | _, [], _, _ => rfl
  | seen, d :: ds, hnd, hni => by
    have hd : d ∉ seen := hni d (List.mem_cons_self d ds)
    simp only [dedupFirst, if_neg hd]
    congr 1
    apply dedupFirst_eq_self
    · exact hnd.of_cons
    · intro x hx
      simp only [List.mem_cons]
      rintro (rfl | hxseen)
      · exact (List.nodup_cons.mp hnd).1 hx
      · exact hni x (List.mem_cons_of_mem _ hx) hxseen

theorem sortInts_eq_self : ∀ l : List Int, sortedLt l = true → sortInts l = l
  | [], _ => rfl
  | [x], _ => rfl
  | x :: y :: t, h => by
    simp only [sortedLt, Bool.and_eq_true, decide_eq_true_eq] at h
    have ih := sortInts_eq_self (y :: t) h.2
    simp only [sortInts] at ih ⊢
    rw [ih]
    simp only [insertAsc, if_pos (le_of_lt h.1)]

theorem normalize_of_valid (l : List Int) (hr : ∀ d ∈ l, 0 ≤ d ∧ d ≤ 6)
    (hs : sortedLt l = true) : normalize_days l = some l := by
  have hany : l.any (fun d => decide (d < 0) || decide (6 < d)) = false := by
    simp only [List.any_eq_false]
    intro d hd
    have := hr d hd
    simp only [Bool.or_eq_true, decide_eq_true_eq, not_or]
    omega
  unfold normalize_days
  rw [hany]
  simp only [Bool.false_eq_true, if_false]
  rw [dedupFirst_eq_self [] l (sortedLt_nodup l hs) (by simp)]
  rw [sortInts_eq_self l hs]

/-- Claim C5: decoding the record produced by encoding any valid alarm
(including one with a non-empty `extra` map and a `start_date`) returns
the alarm unchanged in every field. -/
theorem alarm_roundtrip (a : Alarm) (hv : a.Valid) :
    Alarm.from_dict a.to_dict = some a := by
  obtain ⟨hid, hlab, hh, hm, hs, hsort, hrange, hvol⟩ := hv
  simp only [Alarm.from_dict, Alarm.to_dict, MusicSettings.to_dict,
    MusicSettings.from_dict, Option.getD_some, Alarm.make]
  rw [normalize_of_valid a.repeat_days hrange hsort]
  simp only [hid, hh.1, hh.2, hm.1, hm.2, hs.1, hs.2, not_le.mpr hvol, hlab,
    and_self, not_true, Bool.false_eq_true, if_false, ite_false]

/-- Alarm with a non-empty `extra` map and a `start_date`, used to
witness the round trip. -/
def alarmRich : Alarm :=
  ⟨"a", "A", 7, 30, 0, "Europe/Berlin", [1, 3], some 10,
   ⟨"app", some "cmd", 440, 30, [("k", "v")]⟩, true, 1⟩

/-- Claim C5 witness: the round trip at a concrete alarm carrying a
non-empty `extra` map and a `start_date`. -/
theorem alarm_roundtrip_witness :
    Alarm.from_dict alarmRich.to_dict = some alarmRich :=
  alarm_roundtrip alarmRich (by decide)

/-- Claim C9: whenever decoding a record succeeds, every absent field
took its documented default: second 0, timezone "UTC", empty
repeat_days, enabled, volume 1, tone frequency 440, tone duration 30,
and the label defaults to the id. -/
theorem from_dict_defaults (r : AlarmRecord) (a : Alarm)
    (h : Alarm.from_dict r = some a) :
    (r.second = none → a.second = 0) ∧
    (r.timezone = none → a.timezone = "UTC") ∧
    (r.repeat_days = none → a.repeat_days = []) ∧
    (r.enabled = none → a.enabled = true) ∧
    (r.volume = none → a.volume = 1) ∧
    (r.label = none → a.label = a.id) ∧
    (r.music = none → a.music.tone_frequency_hz = 440 ∧
      a.music.tone_duration_seconds = 30) ∧
    (∀ m, r.music = some m → m.tone_frequency_hz = none →
      a.music.tone_frequency_hz = 440) ∧
    (∀ m, r.music = some m → m.tone_duration_seconds = none →
      a.music.tone_duration_seconds = 30) := by
  unfold Alarm.from_dict Alarm.make at h
  split at h
  · exact absurd h (by simp)
  · split at h
    · exact absurd h (by simp)
    · split at h
      · exact absurd h (by simp)
      · rename_i days hnorm
        split at h
        · exact absurd h (by simp)
        · injection h with h2
          subst h2
          refine ⟨fun h => by simp [h], fun h => by simp [h], fun h => ?_,
            fun h => by simp [h], fun h => by simp [h], fun h => by simp [h],
            fun h => ?_, fun m hm hf => ?_, fun m hm hf => ?_⟩
          · rw [h] at hnorm
            simp only [Option.getD_none] at hnorm ⊢
            have : normalize_days [] = some [] := by decide
            rw [this] at hnorm
            injection hnorm with h3
            exact h3.symm
          · rw [h]
            constructor <;> rfl
          · rw [hm]
            simp [MusicSettings.from_dict, hf]
          · rw [hm]
            simp [MusicSettings.from_dict, hf]

/-- Record carrying only an id. -/
def recBare : AlarmRecord := { id := "x" }

/-- Alarm decoded from `recBare`: every field at its default. -/
def alarmBare : Alarm :=
  ⟨"x", "x", 0, 0, 0, "UTC", [], none, ⟨"None", none, 440, 30, []⟩, true, 1⟩

/-- Claim C9 witness: decoding the bare record succeeds and the
defaults theorem applies to it. -/
theorem from_dict_defaults_witness :
    Alarm.from_dict recBare = some alarmBare ∧
    alarmBare.second = 0 ∧ alarmBare.timezone = "UTC" ∧
    alarmBare.repeat_days = [] ∧ alarmBare.enabled = true ∧
    alarmBare.volume = 1 ∧ alarmBare.label = alarmBare.id ∧
    alarmBare.music.tone_frequency_hz = 440 ∧
    alarmBare.music.tone_duration_seconds = 30 := by
  have h : Alarm.from_dict recBare = some alarmBare := by decide
  have hd := from_dict_defaults recBare alarmBare h
  exact ⟨h, hd.1 rfl, hd.2.1 rfl, hd.2.2.1 rfl, hd.2.2.2.1 rfl,
    hd.2.2.2.2.1 rfl, hd.2.2.2.2.2.1 rfl, (hd.2.2.2.2.2.2.1 rfl).1,
    (hd.2.2.2.2.2.2.1 rfl).2⟩

/-!
Association-list and task-set lemmas used by the scheduler claims.
-/

theorem assocLookup_assocSet_self : ∀ (l : List (String × Nat)) (k : String) (v : Nat),
    assocLookup (assocSet l k v) k = some v
  | [], k, v => by simp [assocSet, assocLookup]
  | p :: ps, k, v => by
    by_cases h : p.1 = k
    · simp [assocSet, h, assocLookup]
    · simp only [assocSet, if_neg h, assocLookup, if_neg h]
      exact assocLookup_assocSet_self ps k v

theorem assocLookup_assocSet_ne : ∀ (l : List (String × Nat)) (k k' : String) (v : Nat),
    k' ≠ k → assocLookup (assocSet l k v) k' = assocLookup l k'
  | [], k, k', v, hne => by
    simp only [assocSet, assocLookup, if_neg (Ne.symm hne)]
  | p :: ps, k, k', v, hne => by
    by_cases h : p.1 = k
    · simp only [assocSet, if_pos h, assocLookup, h, if_neg (Ne.symm hne)]
    · rw [assocSet, if_neg h]
      simp only [assocLookup]
      by_cases h2 : p.1 = k'
      · rw [if_pos h2, if_pos h2]
      · rw [if_neg h2, if_neg h2]
        exact assocLookup_assocSet_ne ps k k' v hne

theorem mem_assocSet : ∀ (l : List (String × Nat)) (k : String) (v : Nat) (p : String × Nat),
    p ∈ assocSet l k v → p = (k, v) ∨ p ∈ l
  | [], k, v, p, h => by
    simp only [assocSet] at h
    exact Or.inl (List.mem_singleton.mp h)
  | q :: ps, k, v, p, h => by
    by_cases hq : q.1 = k
    · rw [assocSet, if_pos hq] at h
      rcases List.mem_cons.mp h with h | h
      · exact Or.inl h
      · exact Or.inr (List.mem_cons_of_mem _ h)
    · rw [assocSet, if_neg hq] at h
      rcases List.mem_cons.mp h with h | h
      · exact Or.inr (h ▸ List.mem_cons_self q ps)
      · rcases mem_assocSet ps k v p h with h | h
        · exact Or.inl h
        · exact Or.inr (List.mem_cons_of_mem _ h)

theorem mem_assocSet_nodup : ∀ (l : List (String × Nat)) (k : String) (v : Nat)
    (p : String × Nat), ((l.map Prod.fst).Nodup) → p ∈ assocSet l k v →
    p = (k, v) ∨ (p ∈ l ∧ p.1 ≠ k)
  | [], k, v, p, _, h => by
    simp only [assocSet] at h
    exact Or.inl (List.mem_singleton.mp h)
  | q :: ps, k, v, p, hnd, h => by
    rw [List.map_cons, List.nodup_cons] at hnd
    by_cases hq : q.1 = k
    · rw [assocSet, if_pos hq] at h
      rcases List.mem_cons.mp h with h | h
      · exact Or.inl h
      · refine Or.inr ⟨List.mem_cons_of_mem _ h, ?_⟩
        intro hpk
        apply hnd.1
        rw [hq, ← hpk]
        exact List.mem_map_of_mem Prod.fst h
    · rw [assocSet, if_neg hq] at h
      rcases List.mem_cons.mp h with h | h
      · exact Or.inr ⟨h ▸ List.mem_cons_self q ps, h ▸ hq⟩
      · rcases mem_assocSet_nodup ps k v p hnd.2 h with h | h
        · exact Or.inl h
        · exact Or.inr ⟨List.mem_cons_of_mem _ h.1, h.2⟩

theorem assocLookup_isSome_assocSet (l : List (String × Nat)) (k k' : String) (v : Nat)
    (h : (assocLookup l k').isSome = true) :
    (assocLookup (assocSet l k v) k').isSome = true := by
  by_cases hk : k' = k
  · rw [hk, assocLookup_assocSet_self]
    rfl
  · rw [assocLookup_assocSet_ne l k k' v hk]
    exact h

theorem nodup_fst_assocSet : ∀ (l : List (String × Nat)) (k : String) (v : Nat),
    ((l.map Prod.fst).Nodup) → (((assocSet l k v).map Prod.fst).Nodup)
  | [], k, v, _ => by simp [assocSet]
  | q :: ps, k, v, hnd => by
    rw [List.map_cons, List.nodup_cons] at hnd
    by_cases hq : q.1 = k
    · rw [assocSet, if_pos hq, List.map_cons, List.nodup_cons]
      exact ⟨hq ▸ hnd.1, hnd.2⟩
    · rw [assocSet, if_neg hq, List.map_cons, List.nodup_cons]
      refine ⟨?_, nodup_fst_assocSet ps k v hnd.2⟩
      intro hmem
      rcases List.mem_map.mp hmem with ⟨p, hp, hfst⟩
      rcases mem_assocSet ps k v p hp with rfl | hp2
      · exact hq hfst.symm
      · exact hnd.1 (hfst ▸ List.mem_map_of_mem Prod.fst hp2)

theorem nodup_snd_assocSet : ∀ (l : List (String × Nat)) (k : String) (v : Nat),
    ((l.map Prod.snd).Nodup) → (∀ p ∈ l, p.2 < v) →
    (((assocSet l k v).map Prod.snd).Nodup)
  | [], k, v, _, _ => by simp [assocSet]
  | q :: ps, k, v, hnd, hb => by
    rw [List.map_cons, List.nodup_cons] at hnd
    by_cases hq : q.1 = k
    · rw [assocSet, if_pos hq, List.map_cons, List.nodup_cons]
      refine ⟨?_, hnd.2⟩
      intro hmem
      rcases List.mem_map.mp hmem with ⟨p, hp, hsnd⟩
      have := hb p (List.mem_cons_of_mem _ hp)
      omega
    · rw [assocSet, if_neg hq, List.map_cons, List.nodup_cons]
      refine ⟨?_, nodup_snd_assocSet ps k v hnd.2
        (fun p hp => hb p (List.mem_cons_of_mem _ hp))⟩
      intro hmem
      rcases List.mem_map.mp hmem with ⟨p, hp, hsnd⟩
      rcases mem_assocSet ps k v p hp with rfl | hp2
      · have := hb q (List.mem_cons_self q ps)
        omega
      · exact hnd.1 (hsnd ▸ List.mem_map_of_mem Prod.snd hp2)

theorem assocRemove_sublist : ∀ (l : List (String × Nat)) (k : String),
    (assocRemove l k).Sublist l
  | [], _ => List.Sublist.refl []
  | p :: ps, k => by
    rw [assocRemove]
    split
    · exact List.sublist_cons_self p ps
    · exact (assocRemove_sublist ps k).cons₂ p

theorem mem_assocRemove (l : List (String × Nat)) (k : String) (p : String × Nat)
    (h : p ∈ assocRemove l k) : p ∈ l :=
  (assocRemove_sublist l k).subset h

theorem mem_assocRemove_nodup : ∀ (l : List (String × Nat)) (k : String)
    (p : String × Nat), ((l.map Prod.fst).Nodup) → p ∈ assocRemove l k →
    p ∈ l ∧ p.1 ≠ k
  | [], k, p, _, h => by simp [assocRemove] at h
  | q :: ps, k, p, hnd, h => by
    rw [List.map_cons, List.nodup_cons] at hnd
    rw [assocRemove] at h
    split at h
    · rename_i hq
      refine ⟨List.mem_cons_of_mem _ h, ?_⟩
      intro hpk
      apply hnd.1
      rw [hq, ← hpk]
      exact List.mem_map_of_mem Prod.fst h
    · rename_i hq
      rcases List.mem_cons.mp h with rfl | h2
      · exact ⟨List.mem_cons_self p ps, hq⟩
      · have := mem_assocRemove_nodup ps k p hnd.2 h2
        exact ⟨List.mem_cons_of_mem _ this.1, this.2⟩

theorem assocLookup_eq_none_of_not_mem (l : List (String × Nat)) (k : String)
    (h : k ∉ l.map Prod.fst) : assocLookup l k = none := by
  induction l with
  | nil => rfl
  | cons q ps ih =>
    rw [List.map_cons, List.mem_cons, not_or] at h
    rw [assocLookup, if_neg (fun h2 => h.1 h2.symm)]
    exact ih h.2

theorem assocLookup_assocRemove_self (l : List (String × Nat)) (k : String)
    (hnd : (l.map Prod.fst).Nodup) : assocLookup (assocRemove l k) k = none := by
  induction l with
  | nil => rfl
  | cons q ps ih =>
    rw [List.map_cons, List.nodup_cons] at hnd
    rw [assocRemove]
    split
    · rename_i hq
      exact assocLookup_eq_none_of_not_mem ps k (hq ▸ hnd.1)
    · rename_i hq
      rw [assocLookup, if_neg hq]
      exact ih hnd.2

theorem assocLookup_assocRemove_ne : ∀ (l : List (String × Nat)) (k k' : String),
    k' ≠ k → assocLookup (assocRemove l k) k' = assocLookup l k'
  | [], _, _, _ => rfl
  | q :: ps, k, k', hne => by
    rw [assocRemove]
    split
    · rename_i hq
      rw [assocLookup, if_neg (fun h => hne (by rw [← h, hq]))]
    · rw [assocLookup, assocLookup]
      split
      · rfl
      · exact assocLookup_assocRemove_ne ps k k' hne

theorem assocLookup_some_mem : ∀ (l : List (String × Nat)) (k : String) (v : Nat),
    assocLookup l k = some v → (k, v) ∈ l
  | [], k, v, h => by simp [assocLookup] at h
  | q :: ps, k, v, h => by
    rw [assocLookup] at h
    split at h
    · rename_i hq
      injection h with h2
      rw [← hq, ← h2]
      exact List.mem_cons_self q ps
    · exact List.mem_cons_of_mem _ (assocLookup_some_mem ps k v h)

theorem assocLookup_mem : ∀ (l : List (String × Nat)), ((l.map Prod.fst).Nodup) →
    ∀ p ∈ l, assocLookup l p.1 = some p.2
  | [], _, p, hp => by simp at hp
  | q :: ps, hnd, p, hp => by
    rw [List.map_cons, List.nodup_cons] at hnd
    rcases List.mem_cons.mp hp with rfl | hp2
    · rw [assocLookup, if_pos rfl]
    · rw [assocLookup, if_neg ?_]
      · exact assocLookup_mem ps hnd.2 p hp2
      · intro hq
        exact hnd.1 (hq ▸ List.mem_map_of_mem Prod.fst hp2)

theorem mem_taskIns (t : List String) (id x : String) :
    x ∈ taskIns t id ↔ x ∈ t ∨ x = id := by
  unfold taskIns
  split
  · rename_i hid
    constructor
    · exact Or.inl
    · rintro (h | rfl)
      · exact h
      · exact hid
  · simp [List.mem_append]

theorem nodup_taskIns (t : List String) (id : String) (h : t.Nodup) :
    (taskIns t id).Nodup := by
  unfold taskIns
  split
  · exact h
  · rename_i hid
    simp [List.nodup_append, h, hid]

/-- Claim C8: `add_alarm` on an id already present in the live mapping
surfaces `DuplicateId` and changes nothing: same state, and the store's
`save` is never invoked. -/
theorem add_duplicate_rejected (saveOk : Bool) (s : AlarmScheduler) (a : Alarm)
    (h : (assocLookup s.alarms a.id).isSome = true) :
    s.add_alarm saveOk a = ⟨s, some .DuplicateId, false⟩ := by
  unfold AlarmScheduler.add_alarm
  rw [if_pos h]

/-- Started scheduler holding the noon alarm at heap address 0. -/
def schedNoon : AlarmScheduler :=
  ⟨[alarmNoon], [("noon", 0)], ["noon"], true⟩

/-- Claim C8 witness: re-adding the noon alarm is rejected. -/
theorem add_duplicate_rejected_witness :
    AlarmScheduler.add_alarm true schedNoon alarmNoon =
      ⟨schedNoon, some .DuplicateId, false⟩ :=
  add_duplicate_rejected true schedNoon alarmNoon (by decide)

/-- Started scheduler with no alarms. -/
def schedEmpty : AlarmScheduler := ⟨[], [], [], true⟩

/-- Claim C6, counterexample: when `store.save` fails inside
`add_alarm`, the error is surfaced but the live mapping is NOT as it
was before the call — the alarm was inserted before the save and is
never rolled back (scheduler.py lines 51-52). -/
theorem persist_fail_rollback_cex :
    (AlarmScheduler.add_alarm false schedEmpty alarmNoon).err = some .StorageFailed ∧
    (AlarmScheduler.add_alarm false schedEmpty alarmNoon).state.alarms ≠
      schedEmpty.alarms := by
  decide

/-- Claim C6 (amended): when persistence fails, each mutating operation
surfaces `StorageFailed`, but the in-memory mutation made before the
`save` call (insert, replace, pop, or enabled-flag flip) is retained
rather than rolled back; only the post-save task bookkeeping is
skipped, so the task mapping is exactly as before. -/
theorem persist_fail_state_kept (s : AlarmScheduler) (a : Alarm) (id : String) :
    ((assocLookup s.alarms a.id).isSome = false →
      s.add_alarm false a =
        ⟨⟨s.heap ++ [a], assocSet s.alarms a.id s.heap.length, s.tasks, s.started⟩,
         some .StorageFailed, true⟩) ∧
    ((assocLookup s.alarms a.id).isSome = true →
      s.update_alarm false a =
        ⟨⟨s.heap ++ [a], assocSet s.alarms a.id s.heap.length, s.tasks, s.started⟩,
         some .StorageFailed, true⟩) ∧
    ((assocLookup s.alarms id).isSome = true →
      s.remove_alarm false id =
        ⟨⟨s.heap, assocRemove s.alarms id, s.tasks, s.started⟩,
         some .StorageFailed, true⟩) ∧
    (∀ a0, s.getAlarm id = some a0 → a0.enabled = false →
      s.enable false id = ⟨s.setEnabled id true, some .StorageFailed, true⟩) ∧
    (∀ a0, s.getAlarm id = some a0 → a0.enabled = true →
      s.disable false id = ⟨s.setEnabled id false, some .StorageFailed, true⟩) := by
  refine ⟨fun h => ?_, fun h => ?_, fun h => ?_,
    fun a0 h he => ?_, fun a0 h he => ?_⟩
  · unfold AlarmScheduler.add_alarm
    rw [if_neg (by simp [h])]
    rfl
  · unfold AlarmScheduler.update_alarm
    rw [if_neg (by simp [h])]
    rfl
  · unfold AlarmScheduler.remove_alarm
    rw [if_neg (by simp [h])]
    rfl
  · unfold AlarmScheduler.enable
    rw [h]
    simp only [he, Bool.false_eq_true, if_false]
    rfl
  · unfold AlarmScheduler.disable
    rw [h]
    simp only [he, Bool.not_true, Bool.false_eq_true, if_false]
    rfl

/-- Claim C6 witness: the amended theorem applied to the empty started
scheduler, showing the inserted alarm survives the failed save. -/
theorem persist_fail_state_kept_witness :
    AlarmScheduler.add_alarm false schedEmpty alarmNoon =
      ⟨⟨[alarmNoon], [("noon", 0)], [], true⟩, some .StorageFailed, true⟩ := by
  have h := (persist_fail_state_kept schedEmpty alarmNoon "x").1 (by decide)
  simpa using h

theorem setEnabled_heap (s : AlarmScheduler) (id : String) (b : Bool) (addr : Nat)
    (a : Alarm) (hl : assocLookup s.alarms id = some addr)
    (hh : s.heap[addr]? = some a) :
    s.setEnabled id b = { s with heap := s.heap.set addr { a with enabled := b } } := by
  unfold AlarmScheduler.setEnabled
  rw [hl]
  simp only [hh]

/-- Claim C10: `snapshot` copies the dict but shares the `Alarm`
objects.  The snapshot still resolves `id` (and lacks a later-added
id) after the live mapping changes, yet dereferencing its shared
address after `disable` — or after a timer task's self-disable —
shows `enabled = false`. -/
theorem snapshot_shallow_copy (s : AlarmScheduler) (id : String) (addr : Nat)
    (a b : Alarm) (hk : (s.alarms.map Prod.fst).Nodup)
    (hl : assocLookup s.alarms id = some addr)
    (hh : s.heap[addr]? = some a) (he : a.enabled = true)
    (hb : assocLookup s.alarms b.id = none) :
    assocLookup s.snapshot id = some addr ∧
    assocLookup s.snapshot b.id = none ∧
    assocLookup ((s.add_alarm true b).state.alarms) b.id = some s.heap.length ∧
    assocLookup ((s.remove_alarm true id).state.alarms) id = none ∧
    (s.disable true id).state.heap[addr]? = some { a with enabled := false } ∧
    (s.taskSelfDisable true id).state.heap[addr]? =
      some { a with enabled := false } := by
  have haddr : addr < s.heap.length := by
    rcases List.getElem?_eq_some.mp hh with ⟨hlt, -⟩
    exact hlt
  have hga : s.getAlarm id = some a := by
    unfold AlarmScheduler.getAlarm
    rw [hl]
    simp only [hh]
  have hset : (s.setEnabled id false).heap[addr]? = some { a with enabled := false } := by
    rw [setEnabled_heap s id false addr a hl hh]
    simp [List.getElem?_set_self, haddr]
  refine ⟨hl, hb, ?_, ?_, ?_, ?_⟩
  · unfold AlarmScheduler.add_alarm
    rw [if_neg (by simp [hb])]
    simp only [Bool.not_true, Bool.false_eq_true, if_false]
    split
    · exact assocLookup_assocSet_self s.alarms b.id s.heap.length
    · exact assocLookup_assocSet_self s.alarms b.id s.heap.length
  · unfold AlarmScheduler.remove_alarm
    rw [if_neg (by simp [hl])]
    simp only [Bool.not_true, Bool.false_eq_true, if_false]
    exact assocLookup_assocRemove_self s.alarms id hk
  · unfold AlarmScheduler.disable
    rw [hga]
    simp only [he, Bool.not_true, Bool.false_eq_true, if_false]
    exact hset
  · unfold AlarmScheduler.taskSelfDisable
    rw [hga]
    simp only [he, Bool.not_true, Bool.false_eq_true, if_false]
    exact hset

/-- Claim C10 witness: on the concrete one-alarm scheduler, the
snapshot keeps resolving "noon" after removal, and the disable is
visible through the snapshot's shared address. -/
theorem snapshot_shallow_copy_witness :
    assocLookup (AlarmScheduler.snapshot schedNoon) "noon" = some 0 ∧
    assocLookup ((AlarmScheduler.remove_alarm true schedNoon "noon").state.alarms)
      "noon" = none ∧
    (AlarmScheduler.disable true schedNoon "noon").state.heap[0]? =
      some { alarmNoon with enabled := false } := by
  have h := snapshot_shallow_copy schedNoon "noon" 0 alarmNoon alarmDisabled
    (by decide) (by decide) (by decide) (by decide) (by decide)
  exact ⟨h.1, h.2.2.2.1, h.2.2.2.2.1⟩

/-- Whether the shared object at an entry's heap address is an enabled
alarm. -/
def liveEnabled (heap : List Alarm) (p : String × Nat) : Bool :=
  match heap[p.2]? with
  | some a => a.enabled
  | none => false

/-- Well-formedness of the heap encoding of shared `Alarm` objects:
every live entry points into the heap, distinct entries hold distinct
objects, dict keys are unique, and the task dict's keys are unique.
Python guarantees all of this by construction (dicts have unique keys
and each insert binds a distinct object). -/
def WF (s : AlarmScheduler) : Prop :=
  (∀ p ∈ s.alarms, p.2 < s.heap.length) ∧
  ((s.alarms.map Prod.snd).Nodup) ∧
  ((s.alarms.map Prod.fst).Nodup) ∧
  s.tasks.Nodup

instance (s : AlarmScheduler) : Decidable (WF s) :=
  inferInstanceAs (Decidable ((∀ p ∈ s.alarms, p.2 < s.heap.length) ∧
    ((s.alarms.map Prod.snd).Nodup) ∧
    ((s.alarms.map Prod.fst).Nodup) ∧
    s.tasks.Nodup))

/-- The claimed scheduler invariant (spec §3): while started, the task
dict's keys all name live alarms, and an alarm has a task entry exactly
when it is enabled — in particular a disabled alarm has NO entry. -/
def InvClaimed (s : AlarmScheduler) : Prop :=
  s.started = true →
    (∀ id ∈ s.tasks, (assocLookup s.alarms id).isSome = true) ∧
    (∀ p ∈ s.alarms, (liveEnabled s.heap p = true ↔ p.1 ∈ s.tasks))

instance (s : AlarmScheduler) : Decidable (InvClaimed s) :=
  inferInstanceAs (Decidable (s.started = true →
    (∀ id ∈ s.tasks, (assocLookup s.alarms id).isSome = true) ∧
    (∀ p ∈ s.alarms, (liveEnabled s.heap p = true ↔ p.1 ∈ s.tasks))))

/-- The invariant that actually holds: while started, task keys name
live alarms and every enabled alarm has a task entry — but a DISABLED
alarm may still have a (finished) task's entry; while stopped, the
task dict is empty. -/
def InvTasks (s : AlarmScheduler) : Prop :=
  (s.started = true →
    (∀ id ∈ s.tasks, (assocLookup s.alarms id).isSome = true) ∧
    (∀ p ∈ s.alarms, liveEnabled s.heap p = true → p.1 ∈ s.tasks)) ∧
  (s.started = false → s.tasks = [])

instance (s : AlarmScheduler) : Decidable (InvTasks s) :=
  inferInstanceAs (Decidable ((s.started = true →
    (∀ id ∈ s.tasks, (assocLookup s.alarms id).isSome = true) ∧
    (∀ p ∈ s.alarms, liveEnabled s.heap p = true → p.1 ∈ s.tasks)) ∧
    (s.started = false → s.tasks = [])))

/-- Well-formed state satisfying the (amended) task invariant. -/
def GoodState (s : AlarmScheduler) : Prop := WF s ∧ InvTasks s

instance (s : AlarmScheduler) : Decidable (GoodState s) :=
  inferInstanceAs (Decidable (WF s ∧ InvTasks s))

theorem liveEnabled_append (heap ext : List Alarm) (p : String × Nat)
    (h : p.2 < heap.length) : liveEnabled (heap ++ ext) p = liveEnabled heap p := by
  unfold liveEnabled
  rw [List.getElem?_append_left h]

theorem liveEnabled_set_ne (heap : List Alarm) (addr : Nat) (a : Alarm)
    (p : String × Nat) (h : p.2 ≠ addr) :
    liveEnabled (heap.set addr a) p = liveEnabled heap p := by
  unfold liveEnabled
  rw [List.getElem?_set_ne (by omega)]

theorem getElem?_append_self (heap : List Alarm) (a : Alarm) :
    (heap ++ [a])[heap.length]? = some a := by
  rw [List.getElem?_append_right (le_refl _)]
  simp

theorem loadAlarms_bound : ∀ (loaded : List Alarm) (base : Nat)
    (acc : List (String × Nat)), (∀ p ∈ acc, p.2 < base) →
    ∀ p ∈ loadAlarms base acc loaded, p.2 < base + loaded.length
  | [], base, acc, hacc, p, hp => by
    simp only [loadAlarms] at hp
    have := hacc p hp
    omega
  | a :: rest, base, acc, hacc, p, hp => by
    simp only [loadAlarms] at hp
    have hrec := loadAlarms_bound rest (base + 1) (assocSet acc a.id base) ?_ p hp
    · simp only [List.length_cons]
      omega
    · intro q hq
      rcases mem_assocSet acc a.id base q hq with rfl | hq2
      · exact Nat.lt_succ_self base
      · have := hacc q hq2
        omega

theorem loadAlarms_nodup_fst : ∀ (loaded : List Alarm) (base : Nat)
    (acc : List (String × Nat)), ((acc.map Prod.fst).Nodup) →
    (((loadAlarms base acc loaded).map Prod.fst).Nodup)
  | [], _, _, h => h
  | a :: rest, base, acc, h =>
    loadAlarms_nodup_fst rest (base + 1) (assocSet acc a.id base)
      (nodup_fst_assocSet acc a.id base h)

theorem loadAlarms_nodup_snd : ∀ (loaded : List Alarm) (base : Nat)
    (acc : List (String × Nat)), ((acc.map Prod.snd).Nodup) →
    (∀ p ∈ acc, p.2 < base) →
    (((loadAlarms base acc loaded).map Prod.snd).Nodup)
  | [], _, _, h, _ => h
  | a :: rest, base, acc, h, hbound => by
    apply loadAlarms_nodup_snd rest (base + 1) (assocSet acc a.id base)
    · exact nodup_snd_assocSet acc a.id base h hbound
    · intro q hq
      rcases mem_assocSet acc a.id base q hq with rfl | hq2
      · exact Nat.lt_succ_self base
      · have := hbound q hq2
        omega

theorem loadAlarms_isSome : ∀ (loaded : List Alarm) (base : Nat)
    (acc : List (String × Nat)) (k : String),
    ((assocLookup acc k).isSome = true ∨ ∃ a ∈ loaded, a.id = k) →
    (assocLookup (loadAlarms base acc loaded) k).isSome = true
  | [], base, acc, k, h => by
    rcases h with h | ⟨a, ha, -⟩
    · exact h
    · simp at ha
  | a :: rest, base, acc, k, h => by
    apply loadAlarms_isSome rest (base + 1) (assocSet acc a.id base) k
    rcases h with h | ⟨c, hc, rfl⟩
    · exact Or.inl (assocLookup_isSome_assocSet acc a.id k base h)
    · rcases List.mem_cons.mp hc with rfl | hc2
      · rw [assocLookup_assocSet_self]
        exact Or.inl rfl
      · exact Or.inr ⟨c, hc2, rfl⟩

theorem loadAlarms_entries : ∀ (loaded : List Alarm) (base : Nat)
    (acc : List (String × Nat)) (p : String × Nat),
    p ∈ loadAlarms base acc loaded → p ∈ acc ∨
      ∃ i, ∃ h : i < loaded.length, p = ((loaded.get ⟨i, h⟩).id, base + i)
  | [], base, acc, p, hp => Or.inl hp
  | a :: rest, base, acc, p, hp => by
    simp only [loadAlarms] at hp
    rcases loadAlarms_entries rest (base + 1) (assocSet acc a.id base) p hp with h | ⟨i, hi, rfl⟩
    · rcases mem_assocSet acc a.id base p h with rfl | h2
      · exact Or.inr ⟨0, by simp, by simp⟩
      · exact Or.inl h2
    · refine Or.inr ⟨i + 1, by simpa using hi, ?_⟩
      simp only [List.get_cons_succ]
      congr 1
      omega

theorem spawnLoaded_mono : ∀ (loaded : List Alarm) (t : List String) (x : String),
    x ∈ t → x ∈ spawnLoaded t loaded
  | [], _, _, h => h
  | a :: rest, t, x, h => by
    apply spawnLoaded_mono rest _ x
    split
    · exact (mem_taskIns t a.id x).mpr (Or.inl h)
    · exact h

theorem spawnLoaded_mem_of : ∀ (loaded : List Alarm) (t : List String) (a : Alarm),
    a ∈ loaded → a.enabled = true → a.id ∈ spawnLoaded t loaded
  | [], _, a, ha, _ => by simp at ha
  | b :: rest, t, a, ha, he => by
    rcases List.mem_cons.mp ha with rfl | ha2
    · simp only [spawnLoaded, if_pos he]
      exact spawnLoaded_mono rest _ a.id ((mem_taskIns t a.id a.id).mpr (Or.inr rfl))
    · exact spawnLoaded_mem_of rest _ a ha2 he

theorem spawnLoaded_src : ∀ (loaded : List Alarm) (t : List String) (x : String),
    x ∈ spawnLoaded t loaded →
    x ∈ t ∨ ∃ a ∈ loaded, a.id = x ∧ a.enabled = true
  | [], _, _, h => Or.inl h
  | a :: rest, t, x, h => by
    simp only [spawnLoaded] at h
    rcases spawnLoaded_src rest _ x h with h2 | ⟨c, hc, hcx, hce⟩
    · split at h2
      · rcases (mem_taskIns t a.id x).mp h2 with h3 | rfl
        · exact Or.inl h3
        · rename_i hae
          exact Or.inr ⟨a, List.mem_cons_self a rest, rfl, hae⟩
      · exact Or.inl h2
    · exact Or.inr ⟨c, List.mem_cons_of_mem _ hc, hcx, hce⟩

theorem spawnLoaded_nodup : ∀ (loaded : List Alarm) (t : List String),
    t.Nodup → (spawnLoaded t loaded).Nodup
  | [], _, h => h
  | a :: rest, t, h => by
    apply spawnLoaded_nodup rest
    split
    · exact nodup_taskIns t a.id h
    · exact h

theorem getAlarm_inv (s : AlarmScheduler) (id : String) (a : Alarm)
    (h : s.getAlarm id = some a) :
    ∃ addr, assocLookup s.alarms id = some addr ∧ s.heap[addr]? = some a := by
  unfold AlarmScheduler.getAlarm at h
  cases hal : assocLookup s.alarms id with
  | none =>
    rw [hal] at h
    exact absurd h (by simp)
  | some addr =>
    rw [hal] at h
    exact ⟨addr, rfl, h⟩

theorem entry_unique (s : AlarmScheduler) (hsn : (s.alarms.map Prod.snd).Nodup)
    (hkn : (s.alarms.map Prod.fst).Nodup) (id : String) (addr : Nat)
    (hl : assocLookup s.alarms id = some addr) (p : String × Nat) (hp : p ∈ s.alarms)
    (hne : p ≠ (id, addr)) : p.1 ≠ id ∧ p.2 ≠ addr := by
  have hmem : (id, addr) ∈ s.alarms := assocLookup_some_mem s.alarms id addr hl
  constructor
  · intro h1
    have h2 := assocLookup_mem s.alarms hkn p hp
    rw [h1, hl] at h2
    injection h2 with h3
    apply hne
    rw [Prod.ext_iff]
    exact ⟨h1, h3.symm⟩
  · intro h2
    exact hne (List.inj_on_of_nodup_map hsn hp hmem (by rw [h2]))

theorem good_stop (s : AlarmScheduler) (hg : GoodState s) : GoodState s.stop.state := by
  obtain ⟨⟨hb, hsn, hkn, htn⟩, hinv⟩ := hg
  show GoodState { s with tasks := [], started := false }
  refine ⟨⟨hb, hsn, hkn, List.nodup_nil⟩, ?_, fun _ => rfl⟩
  intro h
  simp at h

theorem good_trigger (s : AlarmScheduler) (id : String) (hg : GoodState s) :
    GoodState (s.trigger_now id).state := by
  unfold AlarmScheduler.trigger_now
  split
  · exact hg
  · exact hg

theorem good_start (s : AlarmScheduler) (loaded : List Alarm) (hg : GoodState s) :
    GoodState (s.start loaded).state := by
  obtain ⟨⟨hb, hsn, hkn, htn⟩, hinv⟩ := hg
  unfold AlarmScheduler.start
  by_cases hst : s.started = true
  · rw [if_pos hst]
    exact ⟨⟨hb, hsn, hkn, htn⟩, hinv⟩
  · rw [if_neg hst]
    have hsf : s.started = false := by
      revert hst
      cases s.started <;> simp
    have htasks : s.tasks = [] := hinv.2 hsf
    show GoodState ⟨s.heap ++ loaded, loadAlarms s.heap.length [] loaded,
      spawnLoaded s.tasks loaded, true⟩
    refine ⟨⟨?_, ?_, ?_, ?_⟩, ?_, ?_⟩
    · intro p hp
      have := loadAlarms_bound loaded s.heap.length [] (by simp) p hp
      simpa [List.length_append] using this
    · exact loadAlarms_nodup_snd loaded s.heap.length [] (by simp) (by simp)
    · exact loadAlarms_nodup_fst loaded s.heap.length [] (by simp)
    · rw [htasks]
      exact spawnLoaded_nodup loaded [] List.nodup_nil
    · intro _
      constructor
      · intro id hid
        rw [htasks] at hid
        rcases spawnLoaded_src loaded [] id hid with h | ⟨a, ha, rfl, -⟩
        · simp at h
        · exact loadAlarms_isSome loaded s.heap.length [] a.id (Or.inr ⟨a, ha, rfl⟩)
      · intro p hp hen
        rcases loadAlarms_entries loaded s.heap.length [] p hp with h | ⟨i, hi, rfl⟩
        · simp at h
        · have hheap : (s.heap ++ loaded)[s.heap.length + i]? =
              some (loaded.get ⟨i, hi⟩) := by
            rw [List.getElem?_append_right (Nat.le_add_right _ _)]
            simp [List.getElem?_eq_getElem hi]
          have hform : liveEnabled (s.heap ++ loaded)
              ((loaded.get ⟨i, hi⟩).id, s.heap.length + i) =
              (loaded.get ⟨i, hi⟩).enabled := by
            unfold liveEnabled
            rw [show ((loaded.get ⟨i, hi⟩).id, s.heap.length + i).2 =
              s.heap.length + i from rfl, hheap]
          rw [hform] at hen
          rw [htasks]
          exact spawnLoaded_mem_of loaded [] _ (List.get_mem loaded i hi) hen
    · intro h
      simp at h

theorem setEnabled_alarms (s : AlarmScheduler) (id : String) (b : Bool) :
    (s.setEnabled id b).alarms = s.alarms := by
  unfold AlarmScheduler.setEnabled
  split
  · rfl
  · split <;> rfl

theorem setEnabled_tasks (s : AlarmScheduler) (id : String) (b : Bool) :
    (s.setEnabled id b).tasks = s.tasks := by
  unfold AlarmScheduler.setEnabled
  split
  · rfl
  · split <;> rfl

theorem setEnabled_started (s : AlarmScheduler) (id : String) (b : Bool) :
    (s.setEnabled id b).started = s.started := by
  unfold AlarmScheduler.setEnabled
  split
  · rfl
  · split <;> rfl

theorem liveEnabled_append_self (heap : List Alarm) (a : Alarm) (k : String) :
    liveEnabled (heap ++ [a]) (k, heap.length) = a.enabled := by
  unfold liveEnabled
  rw [show ((k, heap.length) : String × Nat).2 = heap.length from rfl, getElem?_append_self]

theorem liveEnabled_set_self (heap : List Alarm) (addr : Nat) (b : Alarm) (k : String)
    (h : addr < heap.length) :
    liveEnabled (heap.set addr b) (k, addr) = b.enabled := by
  unfold liveEnabled
  rw [show ((k, addr) : String × Nat).2 = addr from rfl]
  simp [List.getElem?_set_self, h]

theorem add_alarm_ok_eq (s : AlarmScheduler) (a : Alarm)
    (hdup : (assocLookup s.alarms a.id).isSome = false) :
    s.add_alarm true a =
      ⟨⟨s.heap ++ [a], assocSet s.alarms a.id s.heap.length,
        (if s.started && a.enabled then taskIns s.tasks a.id else s.tasks),
        s.started⟩, none, true⟩ := by
  unfold AlarmScheduler.add_alarm
  rw [if_neg (by simp [hdup])]
  simp only [Bool.not_true, Bool.false_eq_true, if_false]
  split
  · rfl
  · rfl

theorem update_alarm_ok_eq (s : AlarmScheduler) (a : Alarm)
    (hfound : (assocLookup s.alarms a.id).isSome = true) :
    s.update_alarm true a =
      ⟨⟨s.heap ++ [a], assocSet s.alarms a.id s.heap.length,
        (if s.started && a.enabled then taskIns (taskRem s.tasks a.id) a.id
         else taskRem s.tasks a.id), s.started⟩, none, true⟩ := by
  unfold AlarmScheduler.update_alarm
  rw [if_neg (by simp [hfound])]
  simp only [Bool.not_true, Bool.false_eq_true, if_false]
  split
  · rfl
  · rfl

theorem remove_alarm_ok_eq (s : AlarmScheduler) (id : String)
    (hfound : (assocLookup s.alarms id).isSome = true) :
    s.remove_alarm true id =
      ⟨⟨s.heap, assocRemove s.alarms id, taskRem s.tasks id, s.started⟩,
       none, true⟩ := by
  unfold AlarmScheduler.remove_alarm
  rw [if_neg (by simp [hfound])]
  rfl

theorem enable_ok_eq (s : AlarmScheduler) (id : String) (a0 : Alarm)
    (hga : s.getAlarm id = some a0) (hdis : a0.enabled = false) :
    s.enable true id =
      ⟨(if s.started then { s.setEnabled id true with tasks := taskIns s.tasks id }
        else s.setEnabled id true), none, true⟩ := by
  unfold AlarmScheduler.enable
  rw [hga]
  simp only [hdis, Bool.false_eq_true, if_false, Bool.not_true,
    setEnabled_tasks, setEnabled_started]
  split
  · rfl
  · rfl

theorem disable_ok_eq (s : AlarmScheduler) (id : String) (a0 : Alarm)
    (hga : s.getAlarm id = some a0) (hen : a0.enabled = true) :
    s.disable true id =
      ⟨{ s.setEnabled id false with tasks := taskRem s.tasks id }, none, true⟩ := by
  unfold AlarmScheduler.disable
  rw [hga]
  simp only [hen, Bool.not_true, Bool.false_eq_true, if_false, setEnabled_tasks]

theorem selfdis_ok_eq (s : AlarmScheduler) (id : String) (a0 : Alarm)
    (hga : s.getAlarm id = some a0) (hen : a0.enabled = true) :
    s.taskSelfDisable true id = ⟨s.setEnabled id false, none, true⟩ := by
  unfold AlarmScheduler.taskSelfDisable
  rw [hga]
  simp only [hen, Bool.not_true, Bool.false_eq_true, if_false]

theorem bool_not_true {b : Bool} (h : ¬ b = true) : b = false := by
  revert h
  cases b <;> simp

theorem good_add (s : AlarmScheduler) (a : Alarm) (hg : GoodState s) :
    GoodState (s.add_alarm true a).state := by
  obtain ⟨⟨hb, hsn, hkn, htn⟩, hinv⟩ := hg
  by_cases hdup : (assocLookup s.alarms a.id).isSome = true
  · unfold AlarmScheduler.add_alarm
    rw [if_pos hdup]
    exact ⟨⟨hb, hsn, hkn, htn⟩, hinv⟩
  · rw [add_alarm_ok_eq s a (bool_not_true hdup)]
    have hbound' : ∀ p ∈ assocSet s.alarms a.id s.heap.length,
        p.2 < (s.heap ++ [a]).length := by
      intro p hp
      rcases mem_assocSet _ _ _ p hp with rfl | hp2
      · simp
      · have := hb p hp2
        simp only [List.length_append, List.length_cons, List.length_nil]
        omega
    have hsn' := nodup_snd_assocSet s.alarms a.id s.heap.length hsn hb
    have hkn' := nodup_fst_assocSet s.alarms a.id s.heap.length hkn
    by_cases hcond : (s.started && a.enabled) = true
    · rw [if_pos hcond]
      rw [Bool.and_eq_true] at hcond
      show GoodState ⟨s.heap ++ [a], assocSet s.alarms a.id s.heap.length,
        taskIns s.tasks a.id, s.started⟩
      refine ⟨⟨hbound', hsn', hkn', nodup_taskIns _ _ htn⟩, ?_, ?_⟩
      · intro _
        obtain ⟨hsub, hent⟩ := hinv.1 hcond.1
        constructor
        · intro id hid
          rcases (mem_taskIns s.tasks a.id id).mp hid with hid2 | rfl
          · exact assocLookup_isSome_assocSet s.alarms a.id id s.heap.length (hsub id hid2)
          · rw [assocLookup_assocSet_self]
            rfl
        · intro p hp hen2
          rcases mem_assocSet_nodup s.alarms a.id s.heap.length p hkn hp with rfl | ⟨hp2, hne⟩
          · exact (mem_taskIns _ _ _).mpr (Or.inr rfl)
          · rw [liveEnabled_append s.heap [a] p (hb p hp2)] at hen2
            exact (mem_taskIns _ _ _).mpr (Or.inl (hent p hp2 hen2))
      · intro hsf
        rw [hcond.1] at hsf
        simp at hsf
    · rw [if_neg hcond]
      show GoodState ⟨s.heap ++ [a], assocSet s.alarms a.id s.heap.length,
        s.tasks, s.started⟩
      refine ⟨⟨hbound', hsn', hkn', htn⟩, ?_, fun hsf => hinv.2 hsf⟩
      intro hst
      obtain ⟨hsub, hent⟩ := hinv.1 hst
      constructor
      · intro id hid
        exact assocLookup_isSome_assocSet s.alarms a.id id s.heap.length (hsub id hid)
      · intro p hp hen2
        rcases mem_assocSet_nodup s.alarms a.id s.heap.length p hkn hp with rfl | ⟨hp2, hne⟩
        · rw [liveEnabled_append_self s.heap a a.id] at hen2
          exact absurd (by rw [Bool.and_eq_true]; exact ⟨hst, hen2⟩) hcond
        · rw [liveEnabled_append s.heap [a] p (hb p hp2)] at hen2
          exact hent p hp2 hen2

theorem good_update (s : AlarmScheduler) (a : Alarm) (hg : GoodState s) :
    GoodState (s.update_alarm true a).state := by
  obtain ⟨⟨hb, hsn, hkn, htn⟩, hinv⟩ := hg
  by_cases hfound : (assocLookup s.alarms a.id).isSome = true
  · rw [update_alarm_ok_eq s a hfound]
    have hbound' : ∀ p ∈ assocSet s.alarms a.id s.heap.length,
        p.2 < (s.heap ++ [a]).length := by
      intro p hp
      rcases mem_assocSet _ _ _ p hp with rfl | hp2
      · simp
      · have := hb p hp2
        simp only [List.length_append, List.length_cons, List.length_nil]
        omega
    have hsn' := nodup_snd_assocSet s.alarms a.id s.heap.length hsn hb
    have hkn' := nodup_fst_assocSet s.alarms a.id s.heap.length hkn
    by_cases hcond : (s.started && a.enabled) = true
    · rw [if_pos hcond]
      rw [Bool.and_eq_true] at hcond
      show GoodState ⟨s.heap ++ [a], assocSet s.alarms a.id s.heap.length,
        taskIns (taskRem s.tasks a.id) a.id, s.started⟩
      refine ⟨⟨hbound', hsn', hkn', nodup_taskIns _ _ (htn.erase a.id)⟩, ?_, ?_⟩
      · intro _
        obtain ⟨hsub, hent⟩ := hinv.1 hcond.1
        constructor
        · intro id hid
          rcases (mem_taskIns (taskRem s.tasks a.id) a.id id).mp hid with hid2 | rfl
          · exact assocLookup_isSome_assocSet s.alarms a.id id s.heap.length
              (hsub id (List.mem_of_mem_erase hid2))
          · rw [assocLookup_assocSet_self]
            rfl
        · intro p hp hen2
          rcases mem_assocSet_nodup s.alarms a.id s.heap.length p hkn hp with rfl | ⟨hp2, hne⟩
          · exact (mem_taskIns _ _ _).mpr (Or.inr rfl)
          · rw [liveEnabled_append s.heap [a] p (hb p hp2)] at hen2
            exact (mem_taskIns _ _ _).mpr
              (Or.inl ((htn.mem_erase_iff).mpr ⟨hne, hent p hp2 hen2⟩))
      · intro hsf
        rw [hcond.1] at hsf
        simp at hsf
    · rw [if_neg hcond]
      show GoodState ⟨s.heap ++ [a], assocSet s.alarms a.id s.heap.length,
        taskRem s.tasks a.id, s.started⟩
      refine ⟨⟨hbound', hsn', hkn', htn.erase a.id⟩, ?_, ?_⟩
      · intro hst
        obtain ⟨hsub, hent⟩ := hinv.1 hst
        constructor
        · intro id hid
          exact assocLookup_isSome_assocSet s.alarms a.id id s.heap.length
            (hsub id (List.mem_of_mem_erase hid))
        · intro p hp hen2
          rcases mem_assocSet_nodup s.alarms a.id s.heap.length p hkn hp with rfl | ⟨hp2, hne⟩
          · rw [liveEnabled_append_self s.heap a a.id] at hen2
            exact absurd (by rw [Bool.and_eq_true]; exact ⟨hst, hen2⟩) hcond
          · rw [liveEnabled_append s.heap [a] p (hb p hp2)] at hen2
            exact (htn.mem_erase_iff).mpr ⟨hne, hent p hp2 hen2⟩
      · intro hsf
        rw [hinv.2 hsf]
        rfl
  · unfold AlarmScheduler.update_alarm
    rw [if_pos (by simp [bool_not_true hfound])]
    exact ⟨⟨hb, hsn, hkn, htn⟩, hinv⟩

theorem good_remove (s : AlarmScheduler) (id : String) (hg : GoodState s) :
    GoodState (s.remove_alarm true id).state := by
  obtain ⟨⟨hb, hsn, hkn, htn⟩, hinv⟩ := hg
  by_cases hfound : (assocLookup s.alarms id).isSome = true
  · rw [remove_alarm_ok_eq s id hfound]
    show GoodState ⟨s.heap, assocRemove s.alarms id, taskRem s.tasks id, s.started⟩
    refine ⟨⟨?_, ?_, ?_, htn.erase id⟩, ?_, ?_⟩
    · intro p hp
      exact hb p (mem_assocRemove _ _ p hp)
    · exact List.Nodup.sublist (List.Sublist.map Prod.snd (assocRemove_sublist s.alarms id)) hsn
    · exact List.Nodup.sublist (List.Sublist.map Prod.fst (assocRemove_sublist s.alarms id)) hkn
    · intro hst
      obtain ⟨hsub, hent⟩ := hinv.1 hst
      constructor
      · intro id' hid'
        obtain ⟨hne, hmem⟩ := (htn.mem_erase_iff).mp hid'
        rw [assocLookup_assocRemove_ne s.alarms id id' hne]
        exact hsub id' hmem
      · intro p hp hen2
        obtain ⟨hp2, hne⟩ := mem_assocRemove_nodup s.alarms id p hkn hp
        exact (htn.mem_erase_iff).mpr ⟨hne, hent p hp2 hen2⟩
    · intro hsf
      rw [hinv.2 hsf]
      rfl
  · unfold AlarmScheduler.remove_alarm
    rw [if_pos (by simp [bool_not_true hfound])]
    exact ⟨⟨hb, hsn, hkn, htn⟩, hinv⟩

theorem good_enable (s : AlarmScheduler) (id : String) (hg : GoodState s) :
    GoodState (s.enable true id).state := by
  obtain ⟨⟨hb, hsn, hkn, htn⟩, hinv⟩ := hg
  cases hga : s.getAlarm id with
  | none =>
    unfold AlarmScheduler.enable
    rw [hga]
    exact ⟨⟨hb, hsn, hkn, htn⟩, hinv⟩
  | some a0 =>
    by_cases hae : a0.enabled = true
    · unfold AlarmScheduler.enable
      rw [hga]
      simp only [hae, if_true]
      exact ⟨⟨hb, hsn, hkn, htn⟩, hinv⟩
    · have hdis : a0.enabled = false := bool_not_true hae
      obtain ⟨addr, hl, hh⟩ := getAlarm_inv s id a0 hga
      have haddr : addr < s.heap.length := (List.getElem?_eq_some.mp hh).1
      have hset := setEnabled_heap s id true addr a0 hl hh
      rw [enable_ok_eq s id a0 hga hdis]
      by_cases hst : s.started = true
      · rw [if_pos hst, hset]
        show GoodState ⟨s.heap.set addr { a0 with enabled := true }, s.alarms,
          taskIns s.tasks id, s.started⟩
        refine ⟨⟨?_, hsn, hkn, nodup_taskIns _ _ htn⟩, ?_, ?_⟩
        · intro p hp
          have := hb p hp
          simp only [List.length_set]
          exact this
        · intro _
          obtain ⟨hsub, hent⟩ := hinv.1 hst
          constructor
          · intro id' hid'
            rcases (mem_taskIns s.tasks id id').mp hid' with h2 | rfl
            · exact hsub id' h2
            · rw [hl]
              rfl
          · intro p hp hen2
            by_cases hpe : p = (id, addr)
            · subst hpe
              exact (mem_taskIns _ _ _).mpr (Or.inr rfl)
            · obtain ⟨hp1, hp2⟩ := entry_unique s hsn hkn id addr hl p hp hpe
              rw [liveEnabled_set_ne s.heap addr _ p hp2] at hen2
              exact (mem_taskIns _ _ _).mpr (Or.inl (hent p hp hen2))
        · intro hsf
          rw [hst] at hsf
          simp at hsf
      · rw [if_neg hst, hset]
        have hsf : s.started = false := bool_not_true hst
        show GoodState ⟨s.heap.set addr { a0 with enabled := true }, s.alarms,
          s.tasks, s.started⟩
        refine ⟨⟨?_, hsn, hkn, htn⟩, ?_, fun _ => hinv.2 hsf⟩
        · intro p hp
          have := hb p hp
          simp only [List.length_set]
          exact this
        · intro h
          rw [hsf] at h
          simp at h

theorem good_disable (s : AlarmScheduler) (id : String) (hg : GoodState s) :
    GoodState (s.disable true id).state := by
  obtain ⟨⟨hb, hsn, hkn, htn⟩, hinv⟩ := hg
  cases hga : s.getAlarm id with
  | none =>
    unfold AlarmScheduler.disable
    rw [hga]
    exact ⟨⟨hb, hsn, hkn, htn⟩, hinv⟩
  | some a0 =>
    by_cases hae : a0.enabled = true
    · obtain ⟨addr, hl, hh⟩ := getAlarm_inv s id a0 hga
      have haddr : addr < s.heap.length := (List.getElem?_eq_some.mp hh).1
      have hset := setEnabled_heap s id false addr a0 hl hh
      rw [disable_ok_eq s id a0 hga hae, hset]
      show GoodState ⟨s.heap.set addr { a0 with enabled := false }, s.alarms,
        taskRem s.tasks id, s.started⟩
      refine ⟨⟨?_, hsn, hkn, htn.erase id⟩, ?_, ?_⟩
      · intro p hp
        have := hb p hp
        simp only [List.length_set]
        exact this
      · intro hst
        obtain ⟨hsub, hent⟩ := hinv.1 hst
        constructor
        · intro id' hid'
          exact hsub id' (List.mem_of_mem_erase hid')
        · intro p hp hen2
          by_cases hpe : p = (id, addr)
          · subst hpe
            rw [liveEnabled_set_self s.heap addr _ id haddr] at hen2
            simp at hen2
          · obtain ⟨hp1, hp2⟩ := entry_unique s hsn hkn id addr hl p hp hpe
            rw [liveEnabled_set_ne s.heap addr _ p hp2] at hen2
            exact (htn.mem_erase_iff).mpr ⟨hp1, hent p hp hen2⟩
      · intro hsf
        rw [hinv.2 hsf]
        rfl
    · have hdis : a0.enabled = false := bool_not_true hae
      unfold AlarmScheduler.disable
      rw [hga]
      simp only [hdis, Bool.not_false, if_true]
      exact ⟨⟨hb, hsn, hkn, htn⟩, hinv⟩

theorem good_selfdis (s : AlarmScheduler) (id : String) (hg : GoodState s) :
    GoodState (s.taskSelfDisable true id).state := by
  obtain ⟨⟨hb, hsn, hkn, htn⟩, hinv⟩ := hg
  cases hga : s.getAlarm id with
  | none =>
    unfold AlarmScheduler.taskSelfDisable
    rw [hga]
    exact ⟨⟨hb, hsn, hkn, htn⟩, hinv⟩
  | some a0 =>
    by_cases hae : a0.enabled = true
    · obtain ⟨addr, hl, hh⟩ := getAlarm_inv s id a0 hga
      have haddr : addr < s.heap.length := (List.getElem?_eq_some.mp hh).1
      have hset := setEnabled_heap s id false addr a0 hl hh
      rw [selfdis_ok_eq s id a0 hga hae, hset]
      show GoodState ⟨s.heap.set addr { a0 with enabled := false }, s.alarms,
        s.tasks, s.started⟩
      refine ⟨⟨?_, hsn, hkn, htn⟩, ?_, fun hsf => hinv.2 hsf⟩
      · intro p hp
        have := hb p hp
        simp only [List.length_set]
        exact this
      · intro hst
        obtain ⟨hsub, hent⟩ := hinv.1 hst
        refine ⟨hsub, ?_⟩
        intro p hp hen2
        by_cases hpe : p = (id, addr)
        · subst hpe
          rw [liveEnabled_set_self s.heap addr _ id haddr] at hen2
          simp at hen2
        · obtain ⟨hp1, hp2⟩ := entry_unique s hsn hkn id addr hl p hp hpe
          rw [liveEnabled_set_ne s.heap addr _ p hp2] at hen2
          exact hent p hp hen2
    · have hdis : a0.enabled = false := bool_not_true hae
      unfold AlarmScheduler.taskSelfDisable
      rw [hga]
      simp only [hdis, Bool.not_false, if_true]
      exact ⟨⟨hb, hsn, hkn, htn⟩, hinv⟩

/-- Claim C7 (amended): in a well-formed state where, while started,
every task key names a live alarm and every enabled alarm has a task
entry (and the task dict is empty while stopped), every scheduler
operation and timer-task exit — with persistence succeeding — preserves
exactly that.  The claim's stronger invariant, that a DISABLED alarm
has no entry in the task mapping, is not preserved: a timer task that
disables its own alarm leaves its finished entry behind (see the
counterexample). -/
theorem sched_inv_preserved (o : Op) (s : AlarmScheduler) (hg : GoodState s) :
    GoodState (applyOp true o s).state := by
  cases o with
  | start loaded => exact good_start s loaded hg
  | stop => exact good_stop s hg
  | add a => exact good_add s a hg
  | update a => exact good_update s a hg
  | remove id => exact good_remove s id hg
  | enable id => exact good_enable s id hg
  | disable id => exact good_disable s id hg
  | triggerNow id => exact good_trigger s id hg
  | taskSelfDisable id => exact good_selfdis s id hg

/-- Stopped scheduler before `start()` is first called. -/
def schedFresh : AlarmScheduler := ⟨[], [], [], false⟩

/-- Claim C7, counterexample: starting with one enabled one-shot alarm
satisfies the claimed invariant, but the timer-task exit that disables
the alarm (scheduler.py lines 130-133) leaves the finished task's entry
in `_tasks`, so the disabled alarm still has an entry and the claimed
invariant fails. -/
theorem sched_inv_oneshot_cex :
    InvClaimed (schedFresh.start [alarmNoon]).state ∧
    GoodState (schedFresh.start [alarmNoon]).state ∧
    ¬ InvClaimed ((schedFresh.start [alarmNoon]).state.taskSelfDisable true
      "noon").state := by
  decide

/-- Claim C7 witness: the preservation theorem applied to a concrete
start operation on the fresh scheduler. -/
theorem sched_inv_preserved_witness :
    GoodState (applyOp true (Op.start [alarmNoon]) schedFresh).state :=
  sched_inv_preserved (Op.start [alarmNoon]) schedFresh (by decide)
